import Mathlib

/-!
Verification of the contribution_planner repository (src/plan.py).

The Python program is shallowly embedded: dates are proleptic-Gregorian
ordinals (as in Python's `datetime.date.toordinal`), images are `Bitmap`
structures carrying a width, a height and a pixel function, numpy arrays
are lists of row lists, and fallible Python operations (division by zero,
out-of-range list indexing, missing module attributes) return `Option` /
`Except`.  External library calls (PIL font rendering and `Image.resize`)
are modelled as explicit function parameters, with the facts the program
relies on (output size of a resize) as hypotheses.
-/

namespace ContributionPlanner

/-- `GithubContributionLevels = 4` from src/plan.py. -/
def GithubContributionLevels : ℤ := 4

/-- `Mode` enum from src/plan.py: colors mode for the GitHubPlanner. -/
inductive Mode where
  | depth
  | plain
deriving DecidableEq, Repr

/-! ## Dates, embedded from Python's `datetime` (proleptic Gregorian ordinals)

Python's `datetime.date.toordinal` maps 0001-01-01 to 1; `weekday()` returns
0 for Monday through 6 for Sunday, so `weekday = (toordinal + 6) % 7`.
-/

/-- Gregorian leap-year test (as in Python's `calendar.isleap` /
`datetime._is_leap`). -/
def isLeap (y : ℕ) : Bool := y % 4 == 0 && (y % 100 != 0 || y % 400 == 0)

/-- Number of days in the years before `year` (Python `datetime._days_before_year`). -/
def daysBeforeYear (year : ℕ) : ℕ :=
  let p := year - 1
  365 * p + p / 4 - p / 100 + p / 400

/-- Cumulative days before the given month in a non-leap year
(Python `datetime._DAYS_BEFORE_MONTH`). -/
def daysBeforeMonthCommon (month : ℕ) : ℕ :=
  match month with
  | 1 => 0 | 2 => 31 | 3 => 59 | 4 => 90 | 5 => 120 | 6 => 151
  | 7 => 181 | 8 => 212 | 9 => 243 | 10 => 273 | 11 => 304 | 12 => 334
  | _ => 0

/-- Days before the given month of the given year (Python `datetime._days_before_month`). -/
def daysBeforeMonth (year month : ℕ) : ℕ :=
  daysBeforeMonthCommon month + (if 2 < month && isLeap year then 1 else 0)

/-- Python `datetime.date(year, month, day).toordinal()`: days since 0001-01-00. -/
def toOrdinal (year month day : ℕ) : ℕ :=
  daysBeforeYear year + daysBeforeMonth year month + day

/-- Python `date.weekday()`: 0 = Monday … 6 = Sunday, computed from the ordinal. -/
def weekday (ordinal : ℕ) : ℕ := (ordinal + 6) % 7

/-! ## The `Calendar` class of src/plan.py -/

/-- The `Calendar` class: a year and a contribution matrix (`np.ndarray`
embedded as a list of rows; cells are the numpy integers). -/
structure Calendar where
  year : ℕ
  matrix : List (List ℤ)

/-- numpy `matrix.shape[0]`: the number of rows. -/
def shape0 (m : List (List ℤ)) : ℕ := m.length

/-- numpy `matrix.shape[1]`: the number of columns (the length of a row). -/
def shape1 (m : List (List ℤ)) : ℕ := (m.headD []).length

/-- numpy `matrix[day, week]` for an in-bounds index pair. -/
def cellAt (m : List (List ℤ)) (day week : ℕ) : ℤ := (m.getD day []).getD week 0

/-- `Calendar._get_first_sunday`: January 1 of the year advanced by
`(6 - weekday(Jan1)) % 7` days, returned as an ordinal. -/
def Calendar.getFirstSunday (c : Calendar) : ℕ :=
  let date := toOrdinal c.year 1 1
  let daysToAdd := (6 - weekday date) % 7
  date + daysToAdd

/-- `Calendar.get_contribution_days`: iterate weeks (columns) outer and days
(rows) inner, skip zero cells, and pair each remaining cell with the ordinal
`firstSunday + week*7 + day`. -/
def Calendar.getContributionDays (c : Calendar) : List (ℕ × ℤ) :=
  let startDate := c.getFirstSunday
  (List.range (shape1 c.matrix)).flatMap fun week =>
    (List.range (shape0 c.matrix)).filterMap fun day =>
      if cellAt c.matrix day week = 0 then none
      else some (startDate + (week * 7 + day), cellAt c.matrix day week)

/-! ## Images

PIL images are embedded as a width, a height and a pixel intensity function
(`pixel x y` with `x` the column and `y` the row, values in 0..255).
`Image.resize` is an external library call; it is modelled as an explicit
function parameter `resize : Bitmap → ℕ × ℕ → Bitmap` throughout.
-/

/-- A greyscale PIL image. -/
structure Bitmap where
  width : ℕ
  height : ℕ
  pixel : ℕ → ℕ → ℕ

/-- `Image.new('L', size, color='black')`: a blank canvas of the given
`(width, height)` size with every pixel 0. -/
def blankL (size : ℕ × ℕ) : Bitmap := ⟨size.1, size.2, fun _ _ => 0⟩

/-- `canvas.paste(img, pos)`: overwrite the rectangle of `canvas` starting at
`pos` with the pixels of `img`; the canvas size is unchanged. -/
def Bitmap.paste (canvas img : Bitmap) (pos : ℕ × ℕ) : Bitmap :=
  { canvas with
    pixel := fun x y =>
      if pos.1 ≤ x ∧ x < pos.1 + img.width ∧ pos.2 ≤ y ∧ y < pos.2 + img.height then
        img.pixel (x - pos.1) (y - pos.2)
      else canvas.pixel x y }

/-- `np.array(img)` for a greyscale PIL image: a `height × width` array of
pixel intensities (row `y`, column `x`). -/
def bitmapArray (img : Bitmap) : List (List ℕ) :=
  (List.range img.height).map fun y => (List.range img.width).map fun x => img.pixel x y

/-- `arr.min()` over the flattened values (meaningful for nonempty input). -/
def arrMin (l : List ℕ) : ℕ := l.foldl min (l.headD 0)

/-- `arr.max()` over the flattened values (meaningful for nonempty input). -/
def arrMax (l : List ℕ) : ℕ := l.foldl max 0

/-- `np.rint`: round to the nearest integer, ties to even. -/
def rint (q : ℚ) : ℤ :=
  if q - ⌊q⌋ < 1 / 2 then ⌊q⌋
  else if 1 / 2 < q - ⌊q⌋ then ⌊q⌋ + 1
  else if ⌊q⌋ % 2 = 0 then ⌊q⌋ else ⌊q⌋ + 1

/-! ## `GitHubPlanner._image_to_contribution` (src/plan.py lines 120-151) -/

/-- `max_level` selected by the mode: `GithubContributionLevels` in depth
mode, 1 in plain mode. -/
def maxLevelOf (mode : Mode) : ℤ :=
  match mode with
  | .depth => GithubContributionLevels
  | .plain => 1

/-- `new_height = int(size[1])`. -/
def newHeightOf (size : ℕ × ℕ) : ℕ := size.2

/-- `new_width = min(int(new_height * aspect_ratio), size[0])` where
`aspect_ratio = image.width / image.height`; Python's `int()` truncates the
nonnegative quotient, i.e. takes the floor. -/
def newWidthOf (image : Bitmap) (size : ℕ × ℕ) : ℕ :=
  min (⌊(newHeightOf size : ℚ) * ((image.width : ℚ) / (image.height : ℚ))⌋).toNat size.1

/-- `paste_x = (size[0] - new_width) // 2`. -/
def pasteXOf (image : Bitmap) (size : ℕ × ℕ) : ℕ :=
  (size.1 - newWidthOf image size) / 2

/-- `paste_y = (size[1] - new_height) // 2`. -/
def pasteYOf (size : ℕ × ℕ) : ℕ :=
  (size.2 - newHeightOf size) / 2

/-- The resize-and-center part of `_image_to_contribution`: resize the input
to `(new_width, new_height)` and paste it at `(paste_x, paste_y)` on a blank
canvas of the target size. -/
def fitToCanvas (resize : Bitmap → ℕ × ℕ → Bitmap) (image : Bitmap)
    (size : ℕ × ℕ) : Bitmap :=
  let imgResized := resize image (newWidthOf image size, newHeightOf size)
  (blankL size).paste imgResized (pasteXOf image size, pasteYOf size)

/-- `GitHubPlanner._image_to_contribution`: aspect-preserving resize, center
on a blank canvas, then quantize intensities to `[0, max_level]`.  Returns
`none` when `image.height = 0` (Python raises `ZeroDivisionError` computing
`aspect_ratio`). -/
def imageToContribution (resize : Bitmap → ℕ × ℕ → Bitmap) (mode : Mode)
    (image : Bitmap) (size : ℕ × ℕ := (52, 7)) : Option (List (List ℤ)) :=
  if image.height = 0 then none
  else
    let finalImg := fitToCanvas resize image size
    let imgArray := bitmapArray finalImg
    let vals := imgArray.flatten
    let minVal := arrMin vals
    let maxVal := arrMax vals
    if minVal = maxVal then
      some (imgArray.map fun row => row.map fun _ => (0 : ℤ))
    else
      some (imgArray.map fun row => row.map fun (p : ℕ) =>
        rint (((p : ℚ) - (minVal : ℚ)) / ((maxVal : ℚ) - (minVal : ℚ)) * (maxLevelOf mode : ℚ)))

/-! ## `Calendar.to_image` (src/plan.py lines 45-67) -/

/-- The GitHub color scheme palette from `Calendar.to_image`. -/
def colors : List String := ["#ebedf0", "#9be9a8", "#40c463", "#30a14e", "#216e39"]

/-- Python list indexing `l[i]`: negative indices count from the end;
`none` models an `IndexError`. -/
def pyIndex {α : Type} (l : List α) (i : ℤ) : Option α :=
  let j := if i < 0 then i + l.length else i
  if 0 ≤ j ∧ j < l.length then l[j.toNat]? else none

/-- Run a fallible body over every element of a list, left to right,
failing as soon as the body fails (embeds a Python loop that can raise). -/
def traverseOption {α β : Type} (f : α → Option β) : List α → Option (List β)
  | [] => some []
  | a :: t =>
    match f a, traverseOption f t with
    | some b, some bs => some (b :: bs)
    | _, _ => none

/-- The raster image built by `Calendar.to_image`: the canvas size and, for
each matrix cell, the palette color painted on it. -/
structure RasterImage where
  width : ℤ
  height : ℤ
  cells : List (List String)

instance : Inhabited RasterImage := ⟨⟨0, 0, []⟩⟩

/-- `Calendar.to_image(cell_size=20, padding=2)`: compute the canvas size
from the matrix shape, then look up `colors[contribution_level]` for every
cell.  `none` models an `IndexError` from the palette lookup (or a PIL error
on a negative canvas size). -/
def Calendar.toImage (c : Calendar) (cellSize : ℤ := 20) (padding : ℤ := 2) :
    Option RasterImage :=
  let width := cellSize * (shape1 c.matrix : ℤ) + padding * ((shape1 c.matrix : ℤ) - 1)
  let height := cellSize * (shape0 c.matrix : ℤ) + padding * ((shape0 c.matrix : ℤ) - 1)
  if width < 0 ∨ height < 0 then none
  else
    match traverseOption (fun row =>
        traverseOption (fun col => pyIndex colors (cellAt c.matrix row col))
          (List.range (shape1 c.matrix)))
        (List.range (shape0 c.matrix)) with
    | some cells => some ⟨width, height, cells⟩
    | none => none

/-! ## `GitHubPlanner.plan` and the CLI default year (src/plan.py lines 92-100, 154-179) -/

/-- Python errors surfaced by the embedded code. -/
inductive PyError where
  | attributeError (attr : String)
  | zeroDivisionError
deriving DecidableEq, Repr

/-- The attributes of Python's `datetime` module (the `datetime` CLASS is one
of them; the module itself has no `now` attribute — `now` lives on the
class).  src/plan.py line 1 does `import datetime`, so the bare name
`datetime` denotes the module. -/
def datetimeModuleAttrs : List String :=
  ["MINYEAR", "MAXYEAR", "date", "datetime", "time", "timedelta", "timezone", "tzinfo"]

/-- The `GitHubPlanner` class: font size 30, a font path and a mode. -/
structure GitHubPlanner where
  fontSize : ℕ := 30
  fontPath : String
  mode : Mode

/-- `GitHubPlanner.plan(text, year)`: when `year is None` the code evaluates
`datetime.now()`, an attribute lookup of `"now"` on the `datetime` module,
which raises `AttributeError`; otherwise it rasterizes the text (external
font rendering, modelled by the `textToImage` parameter) and builds the
`Calendar`. -/
def GitHubPlanner.plan (planner : GitHubPlanner)
    (textToImage : String → Bitmap) (resize : Bitmap → ℕ × ℕ → Bitmap)
    (currentYear : ℕ) (text : String) (year : Option ℕ) :
    Except PyError Calendar := do
  let y ← match year with
    | none =>
      if "now" ∈ datetimeModuleAttrs then Except.ok currentYear
      else Except.error (PyError.attributeError "now")
    | some y => Except.ok y
  let asciiImage := textToImage text
  match imageToContribution resize planner.mode asciiImage with
  | none => Except.error PyError.zeroDivisionError
  | some contributionMatrix => Except.ok ⟨y, contributionMatrix⟩

/-- The CLI default year (src/plan.py line 170):
`year = args.year if args.year else datetime.datetime.now().year` —
`datetime.datetime.now()` is valid there, and a missing (or zero, by Python
truthiness) `--year` argument falls back to the current year. -/
def cliDefaultYear (argsYear : Option ℤ) (currentYear : ℤ) : ℤ :=
  match argsYear with
  | some y => if y ≠ 0 then y else currentYear
  | none => currentYear

/-! ## Derived quantities and concrete inputs used by the theorems below -/

/-- The number of zero cells of the matrix, counted the way the iteration of
`get_contribution_days` visits cells (weeks outer, days inner). -/
def zeroCount (m : List (List ℤ)) : ℕ :=
  ((List.range (shape1 m)).map fun week =>
    (List.range (shape0 m)).countP fun day => cellAt m day week == 0).sum

/-- The resize target width as the spec (§4.2) words it:
`min(round(targetHeight * aspectRatio), 52)` with round-to-nearest. -/
def specTargetWidthRound (w h : ℕ) : ℕ := min (round ((7 : ℚ) * w / h)).toNat 52

/-- The resize target width as the code computes it, written directly on the
bitmap dimensions: Python's `int()` truncates, i.e. floors the nonnegative
quotient. -/
def specTargetWidthTrunc (w h : ℕ) : ℕ := min (⌊(7 : ℚ) * w / h⌋).toNat 52

/-- The all-zero 7×52 contribution matrix. -/
def zeroMatrix752 : List (List ℤ) := List.replicate 7 (List.replicate 52 0)

/-- A concrete 7×52 matrix whose rows are 26 zeros followed by 26 ones. -/
def stripeMatrix : List (List ℤ) :=
  List.replicate 7 (List.replicate 26 (0 : ℤ) ++ List.replicate 26 (1 : ℤ))

/-- A concrete 5×3 bitmap (all pixels 0). -/
def sampleBitmap53 : Bitmap := ⟨5, 3, fun _ _ => 0⟩

/-- A concrete stand-in for PIL's resize: whatever the input, produce a
bitmap of the requested size whose pixels are all 0. -/
def resizeZero : Bitmap → ℕ × ℕ → Bitmap := fun _ wh => ⟨wh.1, wh.2, fun _ _ => 0⟩

/-! ## Helper lemmas: folds computing numpy `min` / `max` -/

lemma foldl_min_le_init (l : List ℕ) (init : ℕ) : l.foldl min init ≤ init := by
  induction l generalizing init with
  | nil => exact le_refl _
  | cons a t ih =>
    exact le_trans (ih (min init a)) (min_le_left _ _)

lemma foldl_min_le_mem (l : List ℕ) : ∀ (init : ℕ) {v : ℕ}, v ∈ l → l.foldl min init ≤ v := by
  induction l with
  | nil => intro init v hv; cases hv
  | cons a t ih =>
    intro init v hv
    rcases List.mem_cons.mp hv with rfl | hv'
    · exact le_trans (foldl_min_le_init t (min init v)) (min_le_right _ _)
    · exact ih (min init a) hv'

lemma le_foldl_min (l : List ℕ) : ∀ (init c : ℕ), c ≤ init →
    (∀ v ∈ l, c ≤ v) → c ≤ l.foldl min init := by
  induction l with
  | nil => intro init c h0 _; exact h0
  | cons a t ih =>
    intro init c h0 h
    exact ih (min init a) c (le_min h0 (h a (List.mem_cons_self a t)))
      (fun v hv => h v (List.mem_cons_of_mem _ hv))

lemma le_foldl_max_init (l : List ℕ) : ∀ (init : ℕ), init ≤ l.foldl max init := by
  induction l with
  | nil => intro init; exact le_refl _
  | cons a t ih =>
    intro init
    exact le_trans (le_max_left _ _) (ih (max init a))

lemma le_foldl_max_mem (l : List ℕ) : ∀ (init : ℕ) {v : ℕ}, v ∈ l → v ≤ l.foldl max init := by
  induction l with
  | nil => intro init v hv; cases hv
  | cons a t ih =>
    intro init v hv
    rcases List.mem_cons.mp hv with rfl | hv'
    · exact le_trans (le_max_right _ _) (le_foldl_max_init t (max init v))
    · exact ih (max init a) hv'

lemma foldl_max_le (l : List ℕ) : ∀ (init c : ℕ), init ≤ c →
    (∀ v ∈ l, v ≤ c) → l.foldl max init ≤ c := by
  induction l with
  | nil => intro init c h0 _; exact h0
  | cons a t ih =>
    intro init c h0 h
    exact ih (max init a) c (max_le h0 (h a (List.mem_cons_self a t)))
      (fun v hv => h v (List.mem_cons_of_mem _ hv))

lemma arrMin_le_mem {l : List ℕ} {v : ℕ} (hv : v ∈ l) : arrMin l ≤ v :=
  foldl_min_le_mem l (l.headD 0) hv

lemma le_arrMax_mem {l : List ℕ} {v : ℕ} (hv : v ∈ l) : v ≤ arrMax l :=
  le_foldl_max_mem l 0 hv

/-- On a nonempty list whose elements are all equal, the observed minimum
equals the observed maximum. -/
lemma arrMin_eq_arrMax_of_uniform (l : List ℕ) (hne : l ≠ [])
    (huni : ∀ v ∈ l, ∀ w ∈ l, v = w) : arrMin l = arrMax l := by
  obtain ⟨a, t, rfl⟩ := List.exists_cons_of_ne_nil hne
  have hmem : a ∈ a :: t := List.mem_cons_self a t
  have h1 : arrMin (a :: t) ≤ a := arrMin_le_mem hmem
  have h2 : a ≤ arrMin (a :: t) := by
    unfold arrMin
    exact le_foldl_min _ _ _ (le_refl a) (fun v hv => le_of_eq (huni a hmem v hv))
  have h3 : a ≤ arrMax (a :: t) := le_arrMax_mem hmem
  have h4 : arrMax (a :: t) ≤ a := by
    unfold arrMax
    exact foldl_max_le _ _ _ (Nat.zero_le a) (fun v hv => le_of_eq (huni v hv a hmem))
  omega

/-! ## Helper lemmas: bounds for `np.rint` and the quantization step -/

lemma rint_nonneg {q : ℚ} (h : 0 ≤ q) : 0 ≤ rint q := by
  have hf : (0 : ℤ) ≤ ⌊q⌋ := Int.floor_nonneg.mpr h
  unfold rint
  split
  · exact hf
  split
  · omega
  split <;> omega

lemma rint_le {q : ℚ} {n : ℤ} (h : q ≤ (n : ℚ)) : rint q ≤ n := by
  have hf : ⌊q⌋ ≤ n := by
    have := Int.floor_le_floor h
    simpa using this
  have hlt : ¬ q - ⌊q⌋ < 1 / 2 → ⌊q⌋ + 1 ≤ n := by
    intro hr
    have hpos : (0 : ℚ) < q - ⌊q⌋ := lt_of_lt_of_le (by norm_num) (not_lt.mp hr)
    have : (⌊q⌋ : ℚ) < (n : ℚ) := lt_of_lt_of_le (by linarith) h
    exact_mod_cast Int.add_one_le_iff.mpr (by exact_mod_cast this)
  unfold rint
  split
  · exact hf
  next hr =>
    split
    · exact hlt hr
    split
    · exact hf
    · exact hlt hr

/-- Bounds for one quantized cell: with the observed extremes around the
pixel and a positive level ceiling, the rescaled-and-rounded value lies in
`[0, L]`. -/
lemma quant_cell_bounds (p minV maxV : ℕ) (L : ℤ) (hL : 0 < L)
    (h1 : minV ≤ p) (h2 : p ≤ maxV) (hlt : minV < maxV) :
    0 ≤ rint (((p : ℚ) - (minV : ℚ)) / ((maxV : ℚ) - (minV : ℚ)) * (L : ℚ))
    ∧ rint (((p : ℚ) - (minV : ℚ)) / ((maxV : ℚ) - (minV : ℚ)) * (L : ℚ)) ≤ L := by
  have hden : (0 : ℚ) < (maxV : ℚ) - (minV : ℚ) := by
    have : (minV : ℚ) < (maxV : ℚ) := by exact_mod_cast hlt
    linarith
  have hnum : (0 : ℚ) ≤ (p : ℚ) - (minV : ℚ) := by
    have : (minV : ℚ) ≤ (p : ℚ) := by exact_mod_cast h1
    linarith
  have hLq : (0 : ℚ) ≤ (L : ℚ) := by exact_mod_cast le_of_lt hL
  have hq0 : (0 : ℚ) ≤ ((p : ℚ) - (minV : ℚ)) / ((maxV : ℚ) - (minV : ℚ)) * (L : ℚ) :=
    mul_nonneg (div_nonneg hnum (le_of_lt hden)) hLq
  have hratio : ((p : ℚ) - (minV : ℚ)) / ((maxV : ℚ) - (minV : ℚ)) ≤ 1 := by
    rw [div_le_one hden]
    have : (p : ℚ) ≤ (maxV : ℚ) := by exact_mod_cast h2
    linarith
  have hqL : ((p : ℚ) - (minV : ℚ)) / ((maxV : ℚ) - (minV : ℚ)) * (L : ℚ) ≤ (L : ℚ) :=
    mul_le_of_le_one_left hLq hratio
  exact ⟨rint_nonneg hq0, rint_le hqL⟩

/-- The level ceiling is positive in both modes. -/
lemma maxLevelOf_pos (mode : Mode) : 0 < maxLevelOf mode := by
  cases mode <;> decide

/-! ## Helper lemmas: shape of the pasted canvas and its pixel array -/

lemma fitToCanvas_height (resize : Bitmap → ℕ × ℕ → Bitmap) (image : Bitmap)
    (size : ℕ × ℕ) : (fitToCanvas resize image size).height = size.2 := rfl

lemma fitToCanvas_width (resize : Bitmap → ℕ × ℕ → Bitmap) (image : Bitmap)
    (size : ℕ × ℕ) : (fitToCanvas resize image size).width = size.1 := rfl

lemma bitmapArray_length (img : Bitmap) : (bitmapArray img).length = img.height := by
  simp [bitmapArray]

lemma bitmapArray_row_length (img : Bitmap) {row : List ℕ}
    (h : row ∈ bitmapArray img) : row.length = img.width := by
  simp only [bitmapArray, List.mem_map, List.mem_range] at h
  obtain ⟨y, _, rfl⟩ := h
  simp

lemma bitmapArray_flatten_ne_nil (img : Bitmap) (hh : img.height ≠ 0)
    (hw : img.width ≠ 0) : (bitmapArray img).flatten ≠ [] := by
  apply List.ne_nil_of_mem (a := img.pixel 0 0)
  apply List.mem_flatten_of_mem (l := (List.range img.width).map fun x => img.pixel x 0)
  · simp only [bitmapArray, List.mem_map, List.mem_range]
    exact ⟨0, Nat.pos_of_ne_zero hh, rfl⟩
  · simp only [List.mem_map, List.mem_range]
    exact ⟨0, Nat.pos_of_ne_zero hw, rfl⟩

/-! ## C1: every produced cell lies in `[0, maxLevel]` -/

/-- C1.  For every input bitmap and for both modes, every cell of the matrix
returned by `_image_to_contribution` lies in `[0, maxLevel]` inclusive, where
`maxLevel = 4` in depth mode and `1` in plain mode. -/
theorem contribution_cells_in_range (resize : Bitmap → ℕ × ℕ → Bitmap)
    (mode : Mode) (image : Bitmap) (m : List (List ℤ))
    (h : imageToContribution resize mode image (52, 7) = some m) :
    ∀ row ∈ m, ∀ v ∈ row, 0 ≤ v ∧ v ≤ maxLevelOf mode := by
  simp only [imageToContribution] at h
  split at h
  · exact absurd h (by simp)
  split at h
  · obtain rfl := Option.some.inj h
    intro row hrow v hv
    obtain ⟨r, hr, rfl⟩ := List.mem_map.mp hrow
    obtain ⟨p, hp, rfl⟩ := List.mem_map.mp hv
    exact ⟨le_refl 0, le_of_lt (maxLevelOf_pos mode)⟩
  next hne =>
    obtain rfl := Option.some.inj h
    intro row hrow v hv
    obtain ⟨r, hr, rfl⟩ := List.mem_map.mp hrow
    obtain ⟨p, hp, rfl⟩ := List.mem_map.mp hv
    have hpv : p ∈ (bitmapArray (fitToCanvas resize image (52, 7))).flatten :=
      List.mem_flatten_of_mem hr hp
    have h1 := arrMin_le_mem hpv
    have h2 := le_arrMax_mem hpv
    have hlt : arrMin ((bitmapArray (fitToCanvas resize image (52, 7))).flatten)
        < arrMax ((bitmapArray (fitToCanvas resize image (52, 7))).flatten) :=
      lt_of_le_of_ne (le_trans h1 h2) hne
    exact quant_cell_bounds p _ _ (maxLevelOf mode) (maxLevelOf_pos mode) h1 h2 hlt

/-! ## C2: the produced matrix always has 7 rows and 52 columns -/

/-- C2.  For every input bitmap and both modes, any matrix returned by
`_image_to_contribution` has exactly 7 rows and 52 columns, in both the
uniform-intensity branch and the normal quantization branch (a bitmap of
height 0 raises `ZeroDivisionError` and returns nothing). -/
theorem contribution_matrix_shape (resize : Bitmap → ℕ × ℕ → Bitmap)
    (mode : Mode) (image : Bitmap) (m : List (List ℤ))
    (h : imageToContribution resize mode image (52, 7) = some m) :
    m.length = 7 ∧ ∀ row ∈ m, row.length = 52 := by
  simp only [imageToContribution] at h
  split at h
  · exact absurd h (by simp)
  split at h <;> obtain rfl := Option.some.inj h <;> constructor
  · rw [List.length_map, bitmapArray_length, fitToCanvas_height]
  · intro row hrow
    obtain ⟨r, hr, rfl⟩ := List.mem_map.mp hrow
    rw [List.length_map, bitmapArray_row_length _ hr, fitToCanvas_width]
  · rw [List.length_map, bitmapArray_length, fitToCanvas_height]
  · intro row hrow
    obtain ⟨r, hr, rfl⟩ := List.mem_map.mp hrow
    rw [List.length_map, bitmapArray_row_length _ hr, fitToCanvas_width]

/-! ## C7: a uniform resized-and-centered bitmap quantizes to the zero matrix -/

/-- C7.  If the pixels of the resized-and-centered canvas all have the same
intensity (observed minimum equals observed maximum), then
`_image_to_contribution` returns the all-zero 7×52 matrix. -/
theorem uniform_intensity_zero_matrix (resize : Bitmap → ℕ × ℕ → Bitmap)
    (mode : Mode) (image : Bitmap) (m : List (List ℤ))
    (h : imageToContribution resize mode image (52, 7) = some m)
    (huni : ∀ v ∈ (bitmapArray (fitToCanvas resize image (52, 7))).flatten,
            ∀ w ∈ (bitmapArray (fitToCanvas resize image (52, 7))).flatten, v = w) :
    m = List.replicate 7 (List.replicate 52 (0 : ℤ)) := by
  simp only [imageToContribution] at h
  split at h
  · exact absurd h (by simp)
  split at h
  · obtain rfl := Option.some.inj h
    rw [List.eq_replicate_iff]
    constructor
    · rw [List.length_map, bitmapArray_length, fitToCanvas_height]
    · intro row hrow
      obtain ⟨r, hr, rfl⟩ := List.mem_map.mp hrow
      rw [List.map_const']
      rw [bitmapArray_row_length _ hr, fitToCanvas_width]
  next hcond =>
    exfalso
    apply hcond
    apply arrMin_eq_arrMax_of_uniform _ _ huni
    apply bitmapArray_flatten_ne_nil
    · rw [fitToCanvas_height]; exact (by norm_num : (7 : ℕ) ≠ 0)
    · rw [fitToCanvas_width]; exact (by norm_num : (52 : ℕ) ≠ 0)

/-! ## C3: the first Sunday is a Sunday within January 1–7 -/

/-- C3.  `_get_first_sunday` returns a date whose weekday is Sunday, lying
between January 1 and January 7 of the year inclusive; in particular for
2024 it returns 2024-01-07. -/
theorem firstSunday_is_sunday_in_first_week (c : Calendar) (hy : 1 ≤ c.year) :
    weekday c.getFirstSunday = 6
    ∧ toOrdinal c.year 1 1 ≤ c.getFirstSunday
    ∧ c.getFirstSunday ≤ toOrdinal c.year 1 7
    ∧ (Calendar.mk 2024 []).getFirstSunday = toOrdinal 2024 1 7 := by
  have key : toOrdinal c.year 1 7 = toOrdinal c.year 1 1 + 6 := by
    simp [toOrdinal, daysBeforeMonth]
  refine ⟨?_, ?_, ?_, by decide⟩
  · simp only [Calendar.getFirstSunday, weekday]
    omega
  · simp only [Calendar.getFirstSunday, weekday]
    omega
  · rw [key]
    simp only [Calendar.getFirstSunday, weekday]
    omega

/-! ## Helper lemmas: lengths and sums of the skip-zero iteration -/

lemma length_flatMap_sum {α β : Type} (l : List α) (F : α → List β) :
    (l.flatMap F).length = (l.map fun a => (F a).length).sum := by
  induction l with
  | nil => rfl
  | cons a t ih => simp [List.flatMap_cons, ih]

lemma sum_map_snd_flatMap {α : Type} (l : List α) (F : α → List (ℕ × ℤ)) :
    ((l.flatMap F).map Prod.snd).sum = (l.map fun w => ((F w).map Prod.snd).sum).sum := by
  induction l with
  | nil => rfl
  | cons a t ih => simp [List.flatMap_cons, ih]

lemma skip_filterMap_length {α : Type} (l : List α) (val : α → ℤ) (key : α → ℕ) :
    (l.filterMap fun d => if val d = 0 then none else some (key d, val d)).length
      + l.countP (fun d => val d == 0) = l.length := by
  induction l with
  | nil => rfl
  | cons a t ih =>
    by_cases h : val a = 0 <;>
      simp [List.filterMap_cons, List.countP_cons, h] <;> omega

lemma skip_filterMap_sum {α : Type} (l : List α) (val : α → ℤ) (key : α → ℕ) :
    ((l.filterMap fun d => if val d = 0 then none else some (key d, val d)).map
      Prod.snd).sum = (l.map val).sum := by
  induction l with
  | nil => rfl
  | cons a t ih =>
    by_cases h : val a = 0 <;> simp [List.filterMap_cons, h, ih]

lemma sum_map_add {M : Type} [AddCommMonoid M] (l : List ℕ) (f g : ℕ → M) :
    (l.map fun i => f i + g i).sum = (l.map f).sum + (l.map g).sum := by
  induction l with
  | nil => simp
  | cons a t ih =>
    simp only [List.map_cons, List.sum_cons, ih]
    exact add_add_add_comm _ _ _ _

lemma sum_swap_range (n m : ℕ) (f : ℕ → ℕ → ℤ) :
    ((List.range n).map fun i => ((List.range m).map fun j => f i j).sum).sum
      = ((List.range m).map fun j => ((List.range n).map fun i => f i j).sum).sum := by
  induction n with
  | zero => simp
  | succ n ih =>
    have hstep : ∀ j, ((List.range n ++ [n]).map fun i => f i j).sum
        = ((List.range n).map fun i => f i j).sum + f n j := by
      intro j
      rw [List.map_append, List.sum_append]
      simp
    rw [List.range_succ, List.map_append, List.sum_append]
    simp only [List.map_cons, List.map_nil, List.sum_cons, List.sum_nil, add_zero]
    rw [ih]
    have hmapeq : (List.range m).map (fun j => ((List.range n ++ [n]).map fun i => f i j).sum)
        = (List.range m).map (fun j => ((List.range n).map fun i => f i j).sum + f n j) :=
      List.map_congr_left (fun j _ => hstep j)
    rw [hmapeq, sum_map_add]

lemma range_map_getD {α : Type} (l : List α) (d : α) :
    (List.range l.length).map (fun i => l.getD i d) = l := by
  induction l with
  | nil => rfl
  | cons a t ih =>
    rw [show (a :: t).length = t.length + 1 from rfl, List.range_succ_eq_map,
      List.map_cons, List.map_map]
    have hc : ((fun i => (a :: t).getD i d) ∘ Nat.succ) = fun i => t.getD i d := rfl
    rw [hc, ih]
    rfl

lemma getD_mem {α : Type} (l : List α) (n : ℕ) (d : α) (h : n < l.length) :
    l.getD n d ∈ l := by
  have := List.getD_eq_getElem l d h
  rw [this]
  exact List.getElem_mem h

/-- A 7-row rectangular matrix with 52-long rows has `shape1 = 52`. -/
lemma shape1_of_rect {m : List (List ℤ)} (h0 : shape0 m = 7)
    (h1 : ∀ row ∈ m, row.length = 52) : shape1 m = 52 := by
  cases m with
  | nil => simp [shape0] at h0
  | cons r t => exact h1 r (List.mem_cons_self r t)

lemma pairwise_fst_lt_flatMap (n : ℕ) (F : ℕ → List (ℕ × ℤ)) (lo : ℕ → ℕ)
    (hsorted : ∀ w, (F w).Pairwise fun p q => p.1 < q.1)
    (hbounds : ∀ w, ∀ p ∈ F w, lo w ≤ p.1 ∧ p.1 < lo (w + 1))
    (hmono : Monotone lo) :
    ((List.range n).flatMap F).Pairwise fun p q => p.1 < q.1 := by
  induction n with
  | zero => simp
  | succ n ih =>
    rw [List.range_succ, List.flatMap_append, List.pairwise_append]
    refine ⟨ih, ?_, ?_⟩
    · simp only [List.flatMap_cons, List.flatMap_nil, List.append_nil]
      exact hsorted n
    · intro a ha b hb
      simp only [List.flatMap_cons, List.flatMap_nil, List.append_nil] at hb
      obtain ⟨w, hw, haw⟩ := List.mem_flatMap.mp ha
      have hwn : w + 1 ≤ n := List.mem_range.mp hw
      calc a.1 < lo (w + 1) := (hbounds w a haw).2
        _ ≤ lo n := hmono hwn
        _ ≤ b.1 := (hbounds n b hb).1

/-! ## C4: iteration order, dates, zero-skipping and length of `get_contribution_days` -/

/-- C4.  For a 7×52 matrix, `get_contribution_days` pairs cell `(day, week)`
with the date `firstSunday + (week*7 + day)`, skips zero cells, returns
`52*7` minus the number of zero cells many pairs, and — weeks outer, days
inner — produces strictly increasing dates. -/
theorem contributionDays_dates_and_length (c : Calendar)
    (h0 : shape0 c.matrix = 7) (h1 : ∀ row ∈ c.matrix, row.length = 52) :
    c.getContributionDays.length + zeroCount c.matrix = 52 * 7
    ∧ (∀ p ∈ c.getContributionDays, ∃ week < 52, ∃ day < 7,
        cellAt c.matrix day week ≠ 0
        ∧ p = (c.getFirstSunday + (week * 7 + day), cellAt c.matrix day week))
    ∧ c.getContributionDays.Pairwise (fun p q => p.1 < q.1) := by
  have hs1 : shape1 c.matrix = 52 := shape1_of_rect h0 h1
  refine ⟨?_, ?_, ?_⟩
  · simp only [Calendar.getContributionDays, zeroCount, h0, hs1]
    rw [length_flatMap_sum, ← sum_map_add]
    have hconst : ∀ week : ℕ, ((List.range 7).filterMap fun day =>
        if cellAt c.matrix day week = 0 then none
        else some (c.getFirstSunday + (week * 7 + day), cellAt c.matrix day week)).length
        + (List.range 7).countP (fun day => cellAt c.matrix day week == 0) = 7 := by
      intro week
      have := skip_filterMap_length (List.range 7)
        (fun day => cellAt c.matrix day week)
        (fun day => c.getFirstSunday + (week * 7 + day))
      simpa using this
    rw [List.map_congr_left (fun w _ => hconst w)]
    simp [List.map_const']
  · intro p hp
    simp only [Calendar.getContributionDays, hs1, h0] at hp
    obtain ⟨week, hweek, hpf⟩ := List.mem_flatMap.mp hp
    obtain ⟨day, hday, hsome⟩ := List.mem_filterMap.mp hpf
    rw [List.mem_range] at hweek hday
    by_cases hz : cellAt c.matrix day week = 0
    · rw [if_pos hz] at hsome
      exact absurd hsome (by simp)
    · rw [if_neg hz] at hsome
      obtain rfl := Option.some.inj hsome
      exact ⟨week, hweek, day, hday, hz, rfl⟩
  · simp only [Calendar.getContributionDays, hs1, h0]
    apply pairwise_fst_lt_flatMap 52 _ (fun w => c.getFirstSunday + w * 7)
    · intro w
      rw [List.pairwise_filterMap]
      have hpr : (List.range 7).Pairwise (· < ·) := List.sorted_lt_range 7
      refine hpr.imp ?_
      intro a b hab x hx y hy
      by_cases hza : cellAt c.matrix a w = 0
      · rw [if_pos hza] at hx
        exact absurd hx (by simp)
      · by_cases hzb : cellAt c.matrix b w = 0
        · rw [if_pos hzb] at hy
          exact absurd hy (by simp)
        · rw [if_neg hza, Option.mem_def] at hx
          rw [if_neg hzb, Option.mem_def] at hy
          obtain rfl := Option.some.inj hx
          obtain rfl := Option.some.inj hy
          simp only
          omega
    · intro w p hp
      obtain ⟨day, hday, hsome⟩ := List.mem_filterMap.mp hp
      rw [List.mem_range] at hday
      by_cases hz : cellAt c.matrix day w = 0
      · rw [if_pos hz] at hsome
        exact absurd hsome (by simp)
      · rw [if_neg hz] at hsome
        obtain rfl := Option.some.inj hsome
        constructor
        · simp only
          omega
        · simp only
          omega
    · intro a b hab
      simp only
      have := Nat.mul_le_mul_right 7 hab
      omega

/-! ## C8: the skipped-zero iteration still reproduces the matrix total -/

/-- C8.  The sum of the levels over all pairs returned by
`get_contribution_days` equals the sum of all cells of a 7×52 matrix: the
skipped cells contribute nothing. -/
theorem contributionDays_sum_levels (c : Calendar)
    (h0 : shape0 c.matrix = 7) (h1 : ∀ row ∈ c.matrix, row.length = 52) :
    (c.getContributionDays.map Prod.snd).sum = (c.matrix.map List.sum).sum := by
  have hs1 : shape1 c.matrix = 52 := shape1_of_rect h0 h1
  simp only [Calendar.getContributionDays]
  rw [sum_map_snd_flatMap]
  have step1 : ∀ week : ℕ, (((List.range (shape0 c.matrix)).filterMap fun day =>
      if cellAt c.matrix day week = 0 then none
      else some (c.getFirstSunday + (week * 7 + day), cellAt c.matrix day week)).map
        Prod.snd).sum
      = ((List.range (shape0 c.matrix)).map fun day => cellAt c.matrix day week).sum :=
    fun week => skip_filterMap_sum (List.range (shape0 c.matrix))
      (fun day => cellAt c.matrix day week)
      (fun day => c.getFirstSunday + (week * 7 + day))
  rw [List.map_congr_left (fun w _ => step1 w)]
  rw [sum_swap_range (shape1 c.matrix) (shape0 c.matrix)
    (fun week day => cellAt c.matrix day week)]
  have step2 : ∀ day ∈ List.range (shape0 c.matrix),
      ((List.range (shape1 c.matrix)).map fun week => cellAt c.matrix day week).sum
        = (c.matrix.getD day []).sum := by
    intro day hday
    rw [List.mem_range] at hday
    have hrow : c.matrix.getD day [] ∈ c.matrix := getD_mem _ _ _ hday
    have hlen : (c.matrix.getD day []).length = 52 := h1 _ hrow
    simp only [cellAt]
    rw [hs1, ← hlen, range_map_getD]
  rw [List.map_congr_left step2]
  have hfinal : ((List.range c.matrix.length).map fun day => c.matrix.getD day []).map List.sum
      = c.matrix.map List.sum := by
    rw [range_map_getD]
  rw [← hfinal, List.map_map]
  rfl

/-! ## C5: canvas size of `to_image` -/

/-- C5 counterexample.  On a concrete 7×52 matrix, `to_image` with
`cell_size = 20` and `padding = 2` produces a canvas of height
`20*7 + 2*6 = 152` pixels; the claimed size `1142 × 146` is wrong about the
height. -/
theorem toImage_height_is_152_not_146 :
    ((Calendar.mk 2024 zeroMatrix752).toImage 20 2).map RasterImage.height = some 152
    ∧ (152 : ℤ) ≠ 146 := by
  exact ⟨rfl, by decide⟩

/-- C5 (amended).  For every 7×52 matrix, any image returned by `to_image`
with `cell_size = 20` and `padding = 2` has width `20*52 + 2*51 = 1142` and
height `20*7 + 2*6 = 152` pixels. -/
theorem toImage_size_7x52 (c : Calendar) (h0 : shape0 c.matrix = 7)
    (h1 : shape1 c.matrix = 52) (img : RasterImage)
    (h : c.toImage 20 2 = some img) : img.width = 1142 ∧ img.height = 152 := by
  simp only [Calendar.toImage, h0, h1] at h
  rw [if_neg (by norm_num)] at h
  rcases htv : traverseOption (fun row =>
      traverseOption (fun col => pyIndex colors (cellAt c.matrix row col))
        (List.range 52)) (List.range 7) with _ | cells
  · rw [htv] at h
    exact absurd h (by simp)
  · rw [htv] at h
    obtain rfl := Option.some.inj h
    exact ⟨by norm_num, by norm_num⟩

/-! ## C9: the palette lookup cannot fail under the Grid Mapper invariant -/

lemma traverseOption_isSome {α β : Type} (f : α → Option β) (l : List α)
    (h : ∀ a ∈ l, (f a).isSome) : (traverseOption f l).isSome := by
  induction l with
  | nil => rfl
  | cons a t ih =>
    obtain ⟨b, hb⟩ := Option.isSome_iff_exists.mp (h a (List.mem_cons_self a t))
    obtain ⟨bs, hbs⟩ :=
      Option.isSome_iff_exists.mp (ih (fun x hx => h x (List.mem_cons_of_mem _ hx)))
    simp [traverseOption, hb, hbs]

/-- C9.  For every matrix satisfying the Grid Mapper invariant (7×52 shape,
every cell in `[0, 4]`), every palette lookup `colors[contribution_level]`
done by `to_image` is in bounds, so `to_image` returns an image rather than
an `IndexError`. -/
theorem toImage_safe_under_invariant (c : Calendar)
    (h0 : shape0 c.matrix = 7) (h1 : ∀ row ∈ c.matrix, row.length = 52)
    (hcells : ∀ row ∈ c.matrix, ∀ v ∈ row, 0 ≤ v ∧ v ≤ 4) :
    (c.toImage 20 2).isSome := by
  have hs1 : shape1 c.matrix = 52 := shape1_of_rect h0 h1
  have hlen : c.matrix.length = 7 := h0
  simp only [Calendar.toImage, h0, hs1]
  rw [if_neg (by norm_num)]
  have houter : (traverseOption (fun row =>
      traverseOption (fun col => pyIndex colors (cellAt c.matrix row col))
        (List.range 52)) (List.range 7)).isSome := by
    apply traverseOption_isSome
    intro row hrow
    rw [List.mem_range] at hrow
    apply traverseOption_isSome
    intro col hcol
    rw [List.mem_range] at hcol
    have hrowmem : c.matrix.getD row [] ∈ c.matrix := getD_mem _ _ _ (by omega)
    have hcolmem : (c.matrix.getD row []).getD col 0 ∈ c.matrix.getD row [] :=
      getD_mem _ _ _ (by rw [h1 _ hrowmem]; omega)
    have hb := hcells _ hrowmem _ hcolmem
    have hlc : (colors.length : ℤ) = 5 := rfl
    simp only [pyIndex, cellAt]
    rw [if_neg (not_lt.mpr hb.1)]
    rw [if_pos ⟨hb.1, by omega⟩]
    have hjlt : ((c.matrix.getD row []).getD col 0).toNat < colors.length := by
      simp only [colors, List.length_cons, List.length_nil]
      omega
    rw [List.getElem?_eq_getElem hjlt]
    rfl
  obtain ⟨cells, hcells'⟩ := Option.isSome_iff_exists.mp houter
  rw [hcells']
  rfl

/-! ## C6: the resize target width truncates, it does not round to nearest -/

/-- C6 counterexample.  For a 5×3 bitmap, `7 * 5/3 = 11.67`: the code's
`int(...)` truncation gives target width 11 while the claimed
round-to-nearest rule gives 12. -/
theorem newWidth_truncates_not_rounds :
    newWidthOf sampleBitmap53 (52, 7) = 11
    ∧ specTargetWidthRound sampleBitmap53.width sampleBitmap53.height = 12 := by
  constructor <;>
    · norm_num [newWidthOf, newHeightOf, sampleBitmap53, specTargetWidthRound, round_eq]
      rfl

/-- C6 (amended).  For every bitmap of positive height, the resize step uses
target height 7 and target width `min(floor(7 * width/height), 52)`
(truncation, not round-to-nearest), and pastes at horizontal offset
`floor((52 - newWidth)/2)` and vertical offset `floor((7 - newHeight)/2)`. -/
theorem resize_target_and_center (img : Bitmap) (hh : 0 < img.height) :
    newWidthOf img (52, 7) = specTargetWidthTrunc img.width img.height
    ∧ newHeightOf (52, 7) = 7
    ∧ pasteXOf img (52, 7) = (52 - newWidthOf img (52, 7)) / 2
    ∧ pasteYOf (52, 7) = (7 - newHeightOf (52, 7)) / 2 := by
  refine ⟨?_, rfl, rfl, rfl⟩
  unfold newWidthOf specTargetWidthTrunc newHeightOf
  congr 2
  push_cast
  rw [mul_div_assoc]

/-! ## C10: `plan` with `year = None` raises; only the CLI defaults the year -/

/-- C10.  Calling `plan` with `year = None` evaluates `datetime.now()` — an
attribute lookup of `now` on the `datetime` MODULE — and so raises
`AttributeError` instead of substituting the current year; the CLI path
(line 170) is the one that actually defaults a missing `--year` to the
current year via `datetime.datetime.now()`. -/
theorem plan_year_none_raises :
    (∀ (planner : GitHubPlanner) (textToImage : String → Bitmap)
        (resize : Bitmap → ℕ × ℕ → Bitmap) (currentYear : ℕ) (text : String),
      planner.plan textToImage resize currentYear text none
        = Except.error (PyError.attributeError "now"))
    ∧ ∀ currentYear : ℤ, cliDefaultYear none currentYear = currentYear := by
  constructor
  · intro planner textToImage resize currentYear text
    rfl
  · intro currentYear
    rfl

/-! ## Evaluation helpers for the witnesses

The quantization arithmetic lives in `ℚ`, which the kernel cannot evaluate
numerically, so the concrete runs used by the witnesses go through the
uniform-intensity branch, established deductively. -/

lemma fitToCanvas_resizeZero_pixels :
    ∀ v ∈ (bitmapArray (fitToCanvas resizeZero sampleBitmap53 (52, 7))).flatten, v = 0 := by
  intro v hv
  obtain ⟨row, hrow, hvr⟩ := List.mem_flatten.mp hv
  simp only [bitmapArray, List.mem_map, List.mem_range] at hrow
  obtain ⟨y, _, rfl⟩ := hrow
  simp only [List.mem_map, List.mem_range] at hvr
  obtain ⟨x, _, rfl⟩ := hvr
  show (fitToCanvas resizeZero sampleBitmap53 (52, 7)).pixel x y = 0
  unfold fitToCanvas Bitmap.paste blankL resizeZero
  simp only
  split <;> rfl

lemma imageToContribution_resizeZero_eval :
    imageToContribution resizeZero Mode.plain sampleBitmap53 (52, 7)
      = some (List.replicate 7 (List.replicate 52 (0 : ℤ))) := by
  have hne : (bitmapArray (fitToCanvas resizeZero sampleBitmap53 (52, 7))).flatten ≠ [] := by
    apply bitmapArray_flatten_ne_nil
    · rw [fitToCanvas_height]
      norm_num
    · rw [fitToCanvas_width]
      norm_num
  have hmm := arrMin_eq_arrMax_of_uniform _ hne
    (fun v hv w hw =>
      (fitToCanvas_resizeZero_pixels v hv).trans (fitToCanvas_resizeZero_pixels w hw).symm)
  simp only [imageToContribution]
  rw [if_neg (by decide : ¬ sampleBitmap53.height = 0), if_pos hmm]
  rfl

/-! ## Witnesses: each claim theorem with hypotheses, run on a concrete input -/

/-- Witness for C1 at a concrete run of the pipeline. -/
theorem contribution_cells_in_range_witness :
    0 ≤ (0 : ℤ) ∧ (0 : ℤ) ≤ maxLevelOf Mode.plain := by
  have h := contribution_cells_in_range resizeZero Mode.plain sampleBitmap53 _
    imageToContribution_resizeZero_eval
  exact h (List.replicate 52 (0 : ℤ)) (by decide) 0 (by decide)

/-- Witness for C2 at a concrete run of the pipeline. -/
theorem contribution_matrix_shape_witness :
    (List.replicate 7 (List.replicate 52 (0 : ℤ))).length = 7
    ∧ (List.replicate 52 (0 : ℤ)).length = 52 := by
  have h := contribution_matrix_shape resizeZero Mode.plain sampleBitmap53 _
    imageToContribution_resizeZero_eval
  exact ⟨h.1, h.2 (List.replicate 52 (0 : ℤ)) (by decide)⟩

/-- Witness for C3 at year 2024. -/
theorem firstSunday_is_sunday_in_first_week_witness :
    weekday (Calendar.mk 2024 []).getFirstSunday = 6
    ∧ toOrdinal 2024 1 1 ≤ (Calendar.mk 2024 []).getFirstSunday
    ∧ (Calendar.mk 2024 []).getFirstSunday ≤ toOrdinal 2024 1 7
    ∧ (Calendar.mk 2024 []).getFirstSunday = toOrdinal 2024 1 7 :=
  firstSunday_is_sunday_in_first_week (Calendar.mk 2024 []) (by decide)

set_option maxRecDepth 8192 in
/-- Witness for C4 on a concrete 7×52 matrix with both zero and nonzero
cells. -/
theorem contributionDays_dates_and_length_witness :
    (Calendar.mk 2024 stripeMatrix).getContributionDays.length
      + zeroCount stripeMatrix = 52 * 7 :=
  (contributionDays_dates_and_length (Calendar.mk 2024 stripeMatrix)
    (by simp [stripeMatrix, shape0])
    (by intro row hrow
        simp only [stripeMatrix] at hrow
        rw [List.eq_of_mem_replicate hrow]
        simp)).1

/-- Witness for C5 (amended) on a concrete 7×52 matrix. -/
theorem toImage_size_7x52_witness :
    (((Calendar.mk 2024 zeroMatrix752).toImage 20 2).iget).width = 1142
    ∧ (((Calendar.mk 2024 zeroMatrix752).toImage 20 2).iget).height = 152 :=
  toImage_size_7x52 (Calendar.mk 2024 zeroMatrix752) (by decide) (by decide) _ rfl

/-- Witness for C6 (amended) on a concrete 5×3 bitmap. -/
theorem resize_target_and_center_witness :
    newWidthOf sampleBitmap53 (52, 7) = specTargetWidthTrunc sampleBitmap53.width sampleBitmap53.height
    ∧ newHeightOf (52, 7) = 7
    ∧ pasteXOf sampleBitmap53 (52, 7) = (52 - newWidthOf sampleBitmap53 (52, 7)) / 2
    ∧ pasteYOf (52, 7) = (7 - newHeightOf (52, 7)) / 2 :=
  resize_target_and_center sampleBitmap53 (by decide)

/-- Witness for C7 at a concrete uniform run of the pipeline. -/
theorem uniform_intensity_zero_matrix_witness :
    (imageToContribution resizeZero Mode.plain sampleBitmap53 (52, 7)).getD []
      = List.replicate 7 (List.replicate 52 (0 : ℤ)) :=
  uniform_intensity_zero_matrix resizeZero Mode.plain sampleBitmap53
    ((imageToContribution resizeZero Mode.plain sampleBitmap53 (52, 7)).getD [])
    (by rw [imageToContribution_resizeZero_eval]
        rfl)
    (fun v hv w hw =>
      (fitToCanvas_resizeZero_pixels v hv).trans (fitToCanvas_resizeZero_pixels w hw).symm)

/-- Witness for C8 on a concrete 7×52 matrix with both zero and nonzero
cells. -/
theorem contributionDays_sum_levels_witness :
    ((Calendar.mk 2024 stripeMatrix).getContributionDays.map Prod.snd).sum
      = (stripeMatrix.map List.sum).sum :=
  contributionDays_sum_levels (Calendar.mk 2024 stripeMatrix)
    (by simp [stripeMatrix, shape0])
    (by intro row hrow
        simp only [stripeMatrix] at hrow
        rw [List.eq_of_mem_replicate hrow]
        simp)

/-- Witness for C9 on a concrete in-invariant matrix. -/
theorem toImage_safe_under_invariant_witness :
    ((Calendar.mk 2024 zeroMatrix752).toImage 20 2).isSome :=
  toImage_safe_under_invariant (Calendar.mk 2024 zeroMatrix752)
    (by simp [zeroMatrix752, shape0])
    (by intro row hrow
        simp only [zeroMatrix752] at hrow
        rw [List.eq_of_mem_replicate hrow]
        simp)
    (by intro row hrow v hv
        simp only [zeroMatrix752] at hrow
        rw [List.eq_of_mem_replicate hrow] at hv
        rw [List.eq_of_mem_replicate hv]
        norm_num)

end ContributionPlanner
